import Mathlib

/-!
# Tracy event queue record format (`common/TracyQueue.hpp`)

A shallow embedding of the header `common/TracyQueue.hpp`: the event-kind
enumeration `QueueType`, the packed payload structures, the one-byte header,
the in-memory record `QueueItem` and the wire-size table `QueueDataSize`,
together with the stream walk the specification describes on top of them.

Sizes are computed by a C structure layout function parameterised by the
`#pragma pack` value, so that the figures of the header are derived from the
field lists rather than written down.
-/

namespace tracy

/-! ## The event-kind enumeration -/

/-- The enumeration `enum class QueueType : uint8_t`, enumerators in
declaration order; `NUM_TYPES` is its trailing sentinel enumerator. -/
inductive QueueType where
  | ZoneText
  | Message
  | ZoneBeginAllocSrcLoc
  | Terminate
  | ZoneBegin
  | ZoneEnd
  | FrameMarkMsg
  | SourceLocation
  | LockAnnounce
  | LockWait
  | LockObtain
  | LockRelease
  | LockMark
  | PlotData
  | MessageLiteral
  | GpuNewContext
  | GpuZoneBegin
  | GpuZoneEnd
  | GpuTime
  | GpuResync
  | StringData
  | ThreadName
  | CustomStringData
  | PlotName
  | SourceLocationPayload
  | NUM_TYPES
  deriving DecidableEq, Repr

/-- The enumerators of `QueueType` as the header lists them, top to bottom. -/
def QueueType.enumerators : List QueueType :=
  [ .ZoneText, .Message, .ZoneBeginAllocSrcLoc, .Terminate, .ZoneBegin, .ZoneEnd,
    .FrameMarkMsg, .SourceLocation, .LockAnnounce, .LockWait, .LockObtain,
    .LockRelease, .LockMark, .PlotData, .MessageLiteral, .GpuNewContext,
    .GpuZoneBegin, .GpuZoneEnd, .GpuTime, .GpuResync, .StringData, .ThreadName,
    .CustomStringData, .PlotName, .SourceLocationPayload, .NUM_TYPES ]

/-- The underlying value `(uint8_t)k` of an enumerator: no enumerator has an
initializer, so the first is 0 and each next one is one more than the
previous, which is the index of the constructor. -/
def QueueType.idx (k : QueueType) : Nat := k.toCtorIdx

/-- An event kind is an enumerator below the sentinel `NUM_TYPES`. -/
def QueueType.isKind (k : QueueType) : Prop := k.idx < QueueType.NUM_TYPES.idx

instance (k : QueueType) : Decidable k.isKind := by
  unfold QueueType.isKind; exact inferInstance

/-- The enumerator whose underlying value is the byte `b`, when there is one
(the cast `(QueueType)b` names no enumerator otherwise). -/
def QueueType.ofByte (b : Nat) : Option QueueType :=
  QueueType.enumerators.find? (fun k => k.idx == b)

/-- The enumeration `enum class LockType : uint8_t`. -/
inductive LockType where
  | Lockable
  | SharedLockable
  deriving DecidableEq, Repr

/-- The enumeration `enum class PlotDataType : uint8_t`. -/
inductive PlotDataType where
  | Float
  | Double
  | Int
  deriving DecidableEq, Repr

/-! ## C types and packed layout -/

/-- The scalar C types that occur as members in the header. The three
enumerations all have the fixed underlying type `uint8_t`. -/
inductive Scalar where
  | int64_t
  | uint64_t
  | uint32_t
  | uint16_t
  | uint8_t
  | double
  | float
  | QueueType
  | LockType
  | PlotDataType
  deriving DecidableEq, Repr

/-- The value `sizeof(t)` of a scalar type, in bytes. -/
def Scalar.sizeof : Scalar → Nat
  | .int64_t => 8
  | .uint64_t => 8
  | .uint32_t => 4
  | .uint16_t => 2
  | .uint8_t => 1
  | .double => 8
  | .float => 4
  | .QueueType => 1
  | .LockType => 1
  | .PlotDataType => 1

/-- The natural alignment of a scalar type: its size. -/
def Scalar.alignof (t : Scalar) : Nat := t.sizeof

/-- The type of a structure member: a scalar, or a union of scalars (the
member `data` of `QueuePlotData`, the anonymous union of `QueueHeader`). -/
inductive Member where
  | scalar (t : Scalar)
  | union (alts : List (String × Scalar))
  deriving DecidableEq, Repr

/-- A C structure: its tag and its members in declaration order. -/
structure Struct where
  name : String
  fields : List (String × Member)
  deriving DecidableEq, Repr

/-- Size and alignment of a laid-out object. -/
structure Layout where
  size : Nat
  align : Nat
  deriving DecidableEq, Repr

/-- Rounds the offset `n` up to the next multiple of `a`. -/
def alignUp (n a : Nat) : Nat := (n + a - 1) / a * a

/-- The alignment a member gets under `#pragma pack( pack )`: its natural
alignment capped by the pack value. -/
def packedAlign (pack a : Nat) : Nat := min pack a

/-- Layout of a structure from the layouts of its members: each member goes
to the next offset that its (capped) alignment allows, and the size is
rounded up to the alignment of the structure. -/
def structLayout (pack : Nat) (ms : List Layout) : Layout :=
  let acc := ms.foldl
    (fun (acc : Layout) m =>
      ⟨alignUp acc.size (packedAlign pack m.align) + m.size,
       max acc.align (packedAlign pack m.align)⟩)
    ⟨0, 1⟩
  ⟨alignUp acc.size acc.align, acc.align⟩

/-- Layout of a union from the layouts of its alternatives: all start at
offset 0, the size is that of the largest, rounded up to the alignment. -/
def unionLayout (pack : Nat) (ms : List Layout) : Layout :=
  let size := ms.foldl (fun s m => max s m.size) 0
  let align := ms.foldl (fun a m => max a (packedAlign pack m.align)) 1
  ⟨alignUp size align, align⟩

/-- Layout of a scalar. -/
def Scalar.layout (t : Scalar) : Layout := ⟨t.sizeof, t.alignof⟩

/-- Layout of a structure member. -/
def Member.layout (pack : Nat) : Member → Layout
  | .scalar t => t.layout
  | .union alts => unionLayout pack (alts.map (fun a => a.2.layout))

/-- Layout of a structure declared under `#pragma pack( pack )`. -/
def Struct.layout (pack : Nat) (s : Struct) : Layout :=
  structLayout pack (s.fields.map (fun f => f.2.layout pack))

/-- The width of a member: the bytes it occupies on its own. -/
def Member.width : Member → Nat
  | .scalar t => t.sizeof
  | .union alts => (alts.map (fun a => a.2.sizeof)).foldl max 0

/-- The sum of the widths of the members of a structure. -/
def Struct.fieldWidthSum (s : Struct) : Nat := (s.fields.map (fun f => f.2.width)).sum

/-- The pack value in force for every structure of the header:
`#pragma pack( 1 )`. -/
def pragmaPack : Nat := 1

/-- The value `sizeof( s )` for a structure of the header. -/
def sizeof (s : Struct) : Nat := (s.layout pragmaPack).size

/-! ## The payload structures -/

/-- The record `struct QueueZoneBegin`. -/
def QueueZoneBegin : Struct := ⟨"QueueZoneBegin",
  [ ("time", .scalar .int64_t),
    ("thread", .scalar .uint64_t),
    ("srcloc", .scalar .uint64_t),
    ("cpu", .scalar .uint32_t) ]⟩

/-- The record `struct QueueZoneEnd`. -/
def QueueZoneEnd : Struct := ⟨"QueueZoneEnd",
  [ ("time", .scalar .int64_t),
    ("thread", .scalar .uint64_t),
    ("cpu", .scalar .uint32_t) ]⟩

/-- The record `struct QueueStringTransfer`. -/
def QueueStringTransfer : Struct := ⟨"QueueStringTransfer",
  [ ("ptr", .scalar .uint64_t) ]⟩

/-- The record `struct QueueFrameMark`. -/
def QueueFrameMark : Struct := ⟨"QueueFrameMark",
  [ ("time", .scalar .int64_t) ]⟩

/-- The record `struct QueueSourceLocation`. -/
def QueueSourceLocation : Struct := ⟨"QueueSourceLocation",
  [ ("name", .scalar .uint64_t),
    ("function", .scalar .uint64_t),
    ("file", .scalar .uint64_t),
    ("line", .scalar .uint32_t),
    ("r", .scalar .uint8_t),
    ("g", .scalar .uint8_t),
    ("b", .scalar .uint8_t) ]⟩

/-- The record `struct QueueZoneText`. -/
def QueueZoneText : Struct := ⟨"QueueZoneText",
  [ ("thread", .scalar .uint64_t),
    ("text", .scalar .uint64_t) ]⟩

/-- The record `struct QueueLockAnnounce`. -/
def QueueLockAnnounce : Struct := ⟨"QueueLockAnnounce",
  [ ("id", .scalar .uint32_t),
    ("lckloc", .scalar .uint64_t),
    ("type", .scalar .LockType) ]⟩

/-- The record `struct QueueLockWait`. -/
def QueueLockWait : Struct := ⟨"QueueLockWait",
  [ ("id", .scalar .uint32_t),
    ("time", .scalar .int64_t),
    ("thread", .scalar .uint64_t) ]⟩

/-- The record `struct QueueLockObtain`. -/
def QueueLockObtain : Struct := ⟨"QueueLockObtain",
  [ ("id", .scalar .uint32_t),
    ("time", .scalar .int64_t),
    ("thread", .scalar .uint64_t) ]⟩

/-- The record `struct QueueLockRelease`. -/
def QueueLockRelease : Struct := ⟨"QueueLockRelease",
  [ ("id", .scalar .uint32_t),
    ("time", .scalar .int64_t),
    ("thread", .scalar .uint64_t) ]⟩

/-- The record `struct QueueLockMark`. -/
def QueueLockMark : Struct := ⟨"QueueLockMark",
  [ ("id", .scalar .uint32_t),
    ("thread", .scalar .uint64_t),
    ("srcloc", .scalar .uint64_t) ]⟩

/-- The record `struct QueuePlotData`; its last member `data` is a union of
a `double`, a `float` and an `int64_t`. -/
def QueuePlotData : Struct := ⟨"QueuePlotData",
  [ ("name", .scalar .uint64_t),
    ("time", .scalar .int64_t),
    ("type", .scalar .PlotDataType),
    ("data", .union [("d", .double), ("f", .float), ("i", .int64_t)]) ]⟩

/-- The record `struct QueueMessage`. -/
def QueueMessage : Struct := ⟨"QueueMessage",
  [ ("time", .scalar .int64_t),
    ("thread", .scalar .uint64_t),
    ("text", .scalar .uint64_t) ]⟩

/-- The record `struct QueueGpuNewContext`. -/
def QueueGpuNewContext : Struct := ⟨"QueueGpuNewContext",
  [ ("cpuTime", .scalar .int64_t),
    ("gpuTime", .scalar .int64_t),
    ("thread", .scalar .uint64_t),
    ("context", .scalar .uint16_t),
    ("accuracyBits", .scalar .uint8_t) ]⟩

/-- The record `struct QueueGpuZoneBegin`. -/
def QueueGpuZoneBegin : Struct := ⟨"QueueGpuZoneBegin",
  [ ("cpuTime", .scalar .int64_t),
    ("srcloc", .scalar .uint64_t),
    ("context", .scalar .uint16_t) ]⟩

/-- The record `struct QueueGpuZoneEnd`. -/
def QueueGpuZoneEnd : Struct := ⟨"QueueGpuZoneEnd",
  [ ("cpuTime", .scalar .int64_t),
    ("context", .scalar .uint16_t) ]⟩

/-- The record `struct QueueGpuTime`. -/
def QueueGpuTime : Struct := ⟨"QueueGpuTime",
  [ ("gpuTime", .scalar .int64_t),
    ("context", .scalar .uint16_t) ]⟩

/-- The record `struct QueueGpuResync`. -/
def QueueGpuResync : Struct := ⟨"QueueGpuResync",
  [ ("cpuTime", .scalar .int64_t),
    ("gpuTime", .scalar .int64_t),
    ("context", .scalar .uint16_t) ]⟩

/-! ## Header, in-memory item and size table -/

/-- The record `struct QueueHeader`: one anonymous union whose alternatives
`type` and `idx` share the same storage. -/
def QueueHeader : Struct := ⟨"QueueHeader",
  [ ("", .union [("type", .QueueType), ("idx", .uint8_t)]) ]⟩

/-- The alternatives of the anonymous union of `struct QueueItem`, in
declaration order. -/
def QueueItem.payloads : List (String × Struct) :=
  [ ("zoneBegin", QueueZoneBegin),
    ("zoneEnd", QueueZoneEnd),
    ("stringTransfer", QueueStringTransfer),
    ("frameMark", QueueFrameMark),
    ("srcloc", QueueSourceLocation),
    ("zoneText", QueueZoneText),
    ("lockAnnounce", QueueLockAnnounce),
    ("lockWait", QueueLockWait),
    ("lockObtain", QueueLockObtain),
    ("lockRelease", QueueLockRelease),
    ("lockMark", QueueLockMark),
    ("plotData", QueuePlotData),
    ("message", QueueMessage),
    ("gpuNewContext", QueueGpuNewContext),
    ("gpuZoneBegin", QueueGpuZoneBegin),
    ("gpuZoneEnd", QueueGpuZoneEnd),
    ("gpuTime", QueueGpuTime),
    ("gpuResync", QueueGpuResync) ]

/-- Layout of `struct QueueItem`: the member `hdr` followed by the anonymous
union of the payload structures. -/
def QueueItem.layout (pack : Nat) : Layout :=
  structLayout pack
    [ QueueHeader.layout pack,
      unionLayout pack (QueueItem.payloads.map (fun p => p.2.layout pack)) ]

/-- The constant `QueueItemSize = sizeof( QueueItem )`. -/
def QueueItemSize : Nat := (QueueItem.layout pragmaPack).size

/-- The initializers of `QueueDataSize[]` as the header writes them: each
entry is a sum of `sizeof` terms, given here by the operands of its terms. -/
def QueueDataSize.terms : List (List Struct) :=
  [ [QueueHeader, QueueZoneText],
    [QueueHeader, QueueMessage],
    [QueueHeader, QueueZoneBegin],       -- allocated source location
    -- above items must be first
    [QueueHeader],                       -- terminate
    [QueueHeader, QueueZoneBegin],
    [QueueHeader, QueueZoneEnd],
    [QueueHeader, QueueFrameMark],
    [QueueHeader, QueueSourceLocation],
    [QueueHeader, QueueLockAnnounce],
    [QueueHeader, QueueLockWait],
    [QueueHeader, QueueLockObtain],
    [QueueHeader, QueueLockRelease],
    [QueueHeader, QueueLockMark],
    [QueueHeader, QueuePlotData],
    [QueueHeader, QueueMessage],         -- literal
    [QueueHeader, QueueGpuNewContext],
    [QueueHeader, QueueGpuZoneBegin],
    [QueueHeader, QueueGpuZoneEnd],
    [QueueHeader, QueueGpuTime],
    [QueueHeader, QueueGpuResync],
    -- keep all QueueStringTransfer below
    [QueueHeader, QueueStringTransfer],  -- string data
    [QueueHeader, QueueStringTransfer],  -- thread name
    [QueueHeader, QueueStringTransfer],  -- custom string data
    [QueueHeader, QueueStringTransfer],  -- plot name
    [QueueHeader, QueueStringTransfer] ] -- allocated source location payload

/-- The table `static const size_t QueueDataSize[]`: every initializer
evaluated. -/
def QueueDataSize : List Nat :=
  QueueDataSize.terms.map (fun e => (e.map sizeof).sum)

/-- A value of `struct QueueHeader`: the single byte of storage that the
alternatives `type` and `idx` of its union both denote. -/
structure QueueHeader.Storage where
  byte : Nat
  deriving DecidableEq, Repr

/-- The assignment `hdr.type = k`: the underlying value of `k` is stored in the
byte. -/
def QueueHeader.Storage.setType (k : QueueType) : QueueHeader.Storage :=
  ⟨k.idx % 2 ^ 8⟩

/-- The read `hdr.idx`: the stored byte as a `uint8_t`. -/
def QueueHeader.Storage.idx (h : QueueHeader.Storage) : Nat := h.byte

/-- The read `hdr.type`: the stored byte as a `QueueType`. -/
def QueueHeader.Storage.type (h : QueueHeader.Storage) : Option QueueType :=
  QueueType.ofByte h.byte

/-! ## The kind-to-shape assignment of the specification -/

/-- The payload shape the specification assigns to each kind (none for
`Terminate`, whose record is the header alone, and none for the sentinel). -/
def specPayloadShape : QueueType → Option Struct
  | .ZoneText => some QueueZoneText
  | .Message => some QueueMessage
  | .ZoneBeginAllocSrcLoc => some QueueZoneBegin
  | .Terminate => none
  | .ZoneBegin => some QueueZoneBegin
  | .ZoneEnd => some QueueZoneEnd
  | .FrameMarkMsg => some QueueFrameMark
  | .SourceLocation => some QueueSourceLocation
  | .LockAnnounce => some QueueLockAnnounce
  | .LockWait => some QueueLockWait
  | .LockObtain => some QueueLockObtain
  | .LockRelease => some QueueLockRelease
  | .LockMark => some QueueLockMark
  | .PlotData => some QueuePlotData
  | .MessageLiteral => some QueueMessage
  | .GpuNewContext => some QueueGpuNewContext
  | .GpuZoneBegin => some QueueGpuZoneBegin
  | .GpuZoneEnd => some QueueGpuZoneEnd
  | .GpuTime => some QueueGpuTime
  | .GpuResync => some QueueGpuResync
  | .StringData => some QueueStringTransfer
  | .ThreadName => some QueueStringTransfer
  | .CustomStringData => some QueueStringTransfer
  | .PlotName => some QueueStringTransfer
  | .SourceLocationPayload => some QueueStringTransfer
  | .NUM_TYPES => none

/-! ## The small enumerations and the member offsets -/

/-- The enumerators of `PlotDataType` as the header lists them. -/
def PlotDataType.enumerators : List PlotDataType := [ .Float, .Double, .Int ]

/-- The underlying value `(uint8_t)v` of an enumerator of `PlotDataType`:
none has an initializer, so it is the index of the constructor. -/
def PlotDataType.idx (v : PlotDataType) : Nat := v.toCtorIdx

/-- The enumerator of `PlotDataType` whose underlying value is the byte `b`,
when there is one. -/
def PlotDataType.ofByte (b : Nat) : Option PlotDataType :=
  PlotDataType.enumerators.find? (fun v => v.idx == b)

/-- The enumerators of `LockType` as the header lists them. -/
def LockType.enumerators : List LockType := [ .Lockable, .SharedLockable ]

/-- The underlying value `(uint8_t)t` of an enumerator of `LockType`: none
has an initializer, so it is the index of the constructor. -/
def LockType.idx (t : LockType) : Nat := t.toCtorIdx

/-- The enumerator of `LockType` whose underlying value is the byte `b`, when
there is one. -/
def LockType.ofByte (b : Nat) : Option LockType :=
  LockType.enumerators.find? (fun t => t.idx == b)

/-- The alternative of the union `data` of `QueuePlotData` that carries the
value of each value-kind, as the specification reads them (section 4.5): a
32-bit float, a 64-bit float, a 64-bit signed integer. -/
def PlotDataType.alternative : PlotDataType → String × Scalar
  | .Float => ("f", .float)
  | .Double => ("d", .double)
  | .Int => ("i", .int64_t)

/-- The offsets of the members of a structure from their layouts, by the
placement rule of `structLayout`: each member goes to the next offset that
its (capped) alignment allows. -/
def structOffsets (pack : Nat) (ms : List Layout) : List Nat :=
  (ms.foldl
    (fun (acc : Nat × List Nat) m =>
      (alignUp acc.1 (packedAlign pack m.align) + m.size,
       acc.2 ++ [alignUp acc.1 (packedAlign pack m.align)]))
    (0, [])).2

/-- The members of a structure with the value `offsetof` and the size of
each, in declaration order. -/
def Struct.memberSpans (pack : Nat) (s : Struct) : List (String × Nat × Nat) :=
  List.zipWith (fun (f : String × Member) off => (f.1, off, (f.2.layout pack).size))
    s.fields (structOffsets pack (s.fields.map (fun f => f.2.layout pack)))

/-- The value `offsetof( s, name )` for a structure of the header. -/
def offsetof (s : Struct) (name : String) : Option Nat :=
  ((s.memberSpans pragmaPack).find? (fun m => m.1 == name)).map (fun m => m.2.1)

/-- The size of the member `name` of a structure of the header. -/
def memberSize (s : Struct) (name : String) : Option Nat :=
  ((s.memberSpans pragmaPack).find? (fun m => m.1 == name)).map (fun m => m.2.2)

/-! ## The stream walk of the specification -/

/-- Modelled from the spec: the error taxonomy of the decoder (section 7);
the header declares no error type. -/
inductive DecodeError where
  | UnknownDiscriminator
  | TruncatedRecord
  | InvalidValueKind
  | InvalidLockKind
  deriving DecidableEq, Repr

/-- Modelled from the spec: the validated conversion of a raw header byte
(sections 4.2 and 9), which the header leaves to the decoder: the byte is
looked up among the enumerators and accepted when it is in the range of the
kinds. -/
def decodeHeader (b : Nat) : Except DecodeError QueueType :=
  match QueueType.ofByte b with
  | none => .error .UnknownDiscriminator
  | some k => if k.isKind then .ok k else .error .UnknownDiscriminator

/-- A record found in a stream: where it starts, its kind and its payload
bytes. -/
structure Record where
  offset : Nat
  kind : QueueType
  payload : List Nat
  deriving DecidableEq, Repr

/-- The byte of a payload of shape `s` that holds its member `type`, at the
offset of the member in the packed structure. -/
def kindByte (s : Struct) (payload : List Nat) : Option Nat :=
  (offsetof s "type").bind (fun o => payload[o]?)

/-- Modelled from the spec: the checks of a payload that are fatal to the
stream (sections 4.5 and 7 c, d), which the header leaves to the decoder: the
value-kind byte of a `PlotData` record must be an enumerator of
`PlotDataType`, else `InvalidValueKind`, and the kind byte of a
`LockAnnounce` record an enumerator of `LockType`, else `InvalidLockKind`.
The other shapes have no member that can be invalid. -/
def checkPayload (k : QueueType) (payload : List Nat) : Except DecodeError Unit :=
  match k with
  | .PlotData =>
    match (kindByte QueuePlotData payload).bind PlotDataType.ofByte with
    | none => .error .InvalidValueKind
    | some _ => .ok ()
  | .LockAnnounce =>
    match (kindByte QueueLockAnnounce payload).bind LockType.ofByte with
    | none => .error .InvalidLockKind
    | some _ => .ok ()
  | _ => .ok ()

/-- Modelled from the spec: the algorithm for consuming the stream (section
4.3), which is the decoder and not part of the header: read one header byte,
validate its range, look up the size in `QueueDataSize`, read
`size - sizeof( QueueHeader )` more bytes as the payload, check the payload
against its shape, and repeat until a `Terminate` record or the end of the
stream. Fewer bytes than the table declares is `TruncatedRecord`, and each of
the four errors stops the walk (section 7). -/
def consumeFrom (off : Nat) (bytes : List Nat) : Except DecodeError (List Record) :=
  match bytes with
  | [] => .ok []
  | b :: rest =>
    match decodeHeader b with
    | .error e => .error e
    | .ok k =>
      match QueueDataSize[b]? with
      | none => .error .UnknownDiscriminator
      | some size =>
        if rest.length < size - sizeof QueueHeader then .error .TruncatedRecord
        else
          match checkPayload k (rest.take (size - sizeof QueueHeader)) with
          | .error e => .error e
          | .ok _ =>
            if k = .Terminate then
              .ok [⟨off, k, rest.take (size - sizeof QueueHeader)⟩]
            else
              match consumeFrom (off + size) (rest.drop (size - sizeof QueueHeader)) with
              | .error e => .error e
              | .ok rs => .ok (⟨off, k, rest.take (size - sizeof QueueHeader)⟩ :: rs)
termination_by bytes.length
decreasing_by
  simp only [List.length_drop, List.length_cons]
  omega

/-- Modelled from the spec: consuming a whole stream, from offset 0. -/
def consume (bytes : List Nat) : Except DecodeError (List Record) :=
  consumeFrom 0 bytes

/-- Modelled from the spec: the packed wire form of a sequence of records
(section 6): for each one the discriminator byte, then its payload bytes. -/
def encode : List (QueueType × List Nat) → List Nat
  | [] => []
  | (k, payload) :: rs => (QueueHeader.Storage.setType k).idx :: payload ++ encode rs

/-- A record is well-formed for the wire when its kind is an event kind and
its payload has `QueueDataSize[kind] - 1` bytes. -/
def wireFormed (r : QueueType × List Nat) : Prop :=
  r.1.isKind ∧ QueueDataSize[r.1.idx]? = some (r.2.length + 1)

instance (r : QueueType × List Nat) : Decidable (wireFormed r) := by
  unfold wireFormed; exact inferInstance

/-- A record has a valid payload when the members of its shape that range
over an enumeration hold an enumerator: the value-kind byte of a `PlotData`
record converts to a `PlotDataType` and the kind byte of a `LockAnnounce`
record to a `LockType`. -/
def payloadValid (r : QueueType × List Nat) : Prop :=
  (r.1 = .PlotData →
      ((kindByte QueuePlotData r.2).bind PlotDataType.ofByte).isSome = true) ∧
    (r.1 = .LockAnnounce →
      ((kindByte QueueLockAnnounce r.2).bind LockType.ofByte).isSome = true)

instance (r : QueueType × List Nat) : Decidable (payloadValid r) := by
  unfold payloadValid; exact inferInstance

/-- The records of the scenarios of the specification (section 8), as kinds
with payload bytes in little-endian order: a `PlotData` with value-kind `Int`
and value -42, a `LockAnnounce` of a `SharedLockable`, a `ZoneBegin` with
time 100, thread 1, handle 7 and cpu 0, a `ZoneEnd` with time 150, thread 1
and cpu 0, and a `Terminate`. -/
def scenarioRecords : List (QueueType × List Nat) :=
  [ (.PlotData,
      [9, 0, 0, 0, 0, 0, 0, 0, 120, 0, 0, 0, 0, 0, 0, 0, 2,
        214, 255, 255, 255, 255, 255, 255, 255]),
    (.LockAnnounce, [5, 0, 0, 0, 64, 0, 0, 0, 0, 0, 0, 0, 1]),
    (.ZoneBegin,
      [100, 0, 0, 0, 0, 0, 0, 0, 1, 0, 0, 0, 0, 0, 0, 0, 7, 0, 0, 0, 0, 0, 0, 0,
        0, 0, 0, 0]),
    (.ZoneEnd, [150, 0, 0, 0, 0, 0, 0, 0, 1, 0, 0, 0, 0, 0, 0, 0, 0, 0, 0, 0]),
    (.Terminate, []) ]

/-- The kinds of a sequence up to and including its first `Terminate`. -/
def uptoTerminate : List QueueType → List QueueType
  | [] => []
  | k :: ks => if k = .Terminate then [k] else k :: uptoTerminate ks

/-- The wire size of a kind: its `QueueDataSize` entry (0 for the sentinel,
which has none). -/
def wireSize (k : QueueType) : Nat := QueueDataSize.getD k.idx 0

/-- The records a walk from offset `off` is expected to find in the wire form
of `rs`: one per record, each starting where the previous one ends, up to and
including the first `Terminate`. -/
def recordsFrom (off : Nat) : List (QueueType × List Nat) → List Record
  | [] => []
  | (k, payload) :: rs =>
    ⟨off, k, payload⟩ ::
      (if k = .Terminate then [] else recordsFrom (off + wireSize k) rs)

/-! ## A consumer that advances by the table -/

/-- Modelled from the spec: one step of a consumer that stands at offset
`off` of a stream (section 4.3; the consumer is not part of the header): it
decodes the header byte at `off` and advances by the table entry of the
decoded kind. There is no step when the stream has no byte at `off` or the
byte is no discriminator. -/
def advance (bytes : List Nat) (off : Nat) : Option Nat :=
  match bytes[off]? with
  | none => none
  | some b =>
    match decodeHeader b with
    | .error _ => none
    | .ok k => some (off + wireSize k)

/-- Modelled from the spec: the offsets of the records a consumer decodes
from offset `off` on, when it is allowed at most `fuel` steps. -/
def walk : Nat → List Nat → Nat → List Nat
  | 0, _, _ => []
  | fuel + 1, bytes, off =>
    match advance bytes off with
    | none => []
    | some next => off :: walk fuel bytes next

/-! ## Properties of the size table and of the enumeration -/

/-- C1: the table `QueueDataSize`, indexed by discriminator, is exactly
`[17,25,29,1,29,21,9,32,14,21,21,21,21,26,25,28,19,11,11,19,9,9,9,9,9]`, the
header is 1 byte, and for every kind other than `Terminate` the entry is
written as `sizeof( QueueHeader )` plus the `sizeof` of the payload shape the
specification assigns to the kind, whose packed size is the sum of its field
widths. -/
theorem QueueDataSize_eq_header_plus_payload :
    QueueDataSize =
        [17, 25, 29, 1, 29, 21, 9, 32, 14, 21, 21, 21, 21, 26, 25, 28, 19, 11, 11, 19,
          9, 9, 9, 9, 9] ∧
      sizeof QueueHeader = 1 ∧
      ∀ k : QueueType, k.isKind → k ≠ .Terminate →
        ∃ s, specPayloadShape k = some s ∧
          sizeof s = s.fieldWidthSum ∧
          QueueDataSize.terms[k.idx]? = some [QueueHeader, s] ∧
          QueueDataSize[k.idx]? = some (sizeof QueueHeader + s.fieldWidthSum) := by
  refine ⟨by decide, by decide, ?_⟩
  intro k hk hT
  cases k
  case Terminate => exact absurd rfl hT
  case NUM_TYPES => exact absurd hk (by decide)
  all_goals exact ⟨_, rfl, by decide, by decide, by decide⟩

/-- C1 at `PlotData`: a kind other than `Terminate`, whose entry is
`1 + 25`. -/
theorem QueueDataSize_eq_header_plus_payload_witness :
    QueueType.PlotData.isKind ∧ QueueType.PlotData ≠ .Terminate ∧
      ∃ s, specPayloadShape .PlotData = some s ∧
        sizeof s = s.fieldWidthSum ∧
        QueueDataSize.terms[QueueType.PlotData.idx]? = some [QueueHeader, s] ∧
        QueueDataSize[QueueType.PlotData.idx]? =
          some (sizeof QueueHeader + s.fieldWidthSum) :=
  ⟨by decide, by decide,
    QueueDataSize_eq_header_plus_payload.2.2 .PlotData (by decide) (by decide)⟩

/-- C2: the in-memory record `QueueItem` occupies exactly 32 bytes: the
1-byte header plus the largest packed payload among the 18 shapes of its
union, which is 31 bytes. -/
theorem QueueItemSize_eq_32 :
    QueueItemSize = 32 ∧
      QueueItem.payloads.length = 18 ∧
      sizeof QueueHeader = 1 ∧
      (QueueItem.payloads.map (fun p => sizeof p.2)).foldl max 0 = 31 ∧
      QueueItemSize =
        sizeof QueueHeader + (QueueItem.payloads.map (fun p => sizeof p.2)).foldl max 0 := by
  decide

/-- C3: `QueueDataSize` has as many entries as `QueueType` has kinds, 25,
the value of the sentinel `NUM_TYPES`; the indices of the table are exactly
the discriminators of the kinds, and each index belongs to one kind only. -/
theorem QueueDataSize_length_eq_NUM_TYPES :
    QueueDataSize.length = 25 ∧
      QueueType.NUM_TYPES.idx = 25 ∧
      (QueueType.enumerators.filter (fun k => decide k.isKind)).length = 25 ∧
      (∀ k : QueueType, k ∈ QueueType.enumerators) ∧
      QueueType.enumerators.Nodup ∧
      (∀ i : Nat, i < QueueDataSize.length ↔ ∃ k : QueueType, k.isKind ∧ k.idx = i) ∧
      (∀ k₁ k₂ : QueueType, k₁.idx = k₂.idx → k₁ = k₂) := by
  refine ⟨by decide, by decide, by decide, ?_, by decide, ?_, ?_⟩
  · intro k; cases k <;> decide
  · intro i
    constructor
    · intro hi
      have hi25 : i < 25 := hi
      refine ⟨(QueueType.enumerators.getD i .NUM_TYPES), ?_, ?_⟩ <;>
        interval_cases i <;> decide
    · rintro ⟨k, hk, rfl⟩
      cases k <;> first | decide | exact absurd hk (by decide)
  · intro k₁ k₂ h
    cases k₁ <;> cases k₂ <;> first | rfl | exact absurd h (by decide)

/-- C4: the entry of `Terminate` is `sizeof( QueueHeader )`, 1 byte, and the
entry of every other kind is strictly greater. -/
theorem QueueDataSize_Terminate_smallest :
    QueueDataSize[QueueType.Terminate.idx]? = some (sizeof QueueHeader) ∧
      sizeof QueueHeader = 1 ∧
      ∀ k : QueueType, k.isKind → k ≠ .Terminate →
        ∃ n, QueueDataSize[k.idx]? = some n ∧ sizeof QueueHeader < n := by
  refine ⟨by decide, by decide, ?_⟩
  intro k hk hT
  cases k
  case Terminate => exact absurd rfl hT
  case NUM_TYPES => exact absurd hk (by decide)
  all_goals exact ⟨_, rfl, by decide⟩

/-- C4 at `FrameMarkMsg`: a kind other than `Terminate`, whose entry 9 is
greater than 1. -/
theorem QueueDataSize_Terminate_smallest_witness :
    QueueType.FrameMarkMsg.isKind ∧ QueueType.FrameMarkMsg ≠ .Terminate ∧
      ∃ n, QueueDataSize[QueueType.FrameMarkMsg.idx]? = some n ∧ sizeof QueueHeader < n :=
  ⟨by decide, by decide,
    QueueDataSize_Terminate_smallest.2.2 .FrameMarkMsg (by decide) (by decide)⟩

/-- C5: `ZoneText`, `Message` and `ZoneBeginAllocSrcLoc` have the
discriminators 0, 1, 2 and `Terminate` has 3: an enumerator is below
`Terminate` if and only if it is one of these three. -/
theorem first_three_below_Terminate :
    QueueType.ZoneText.idx = 0 ∧ QueueType.Message.idx = 1 ∧
      QueueType.ZoneBeginAllocSrcLoc.idx = 2 ∧ QueueType.Terminate.idx = 3 ∧
      ∀ k : QueueType, k.idx < QueueType.Terminate.idx ↔
        (k = .ZoneText ∨ k = .Message ∨ k = .ZoneBeginAllocSrcLoc) := by
  refine ⟨rfl, rfl, rfl, rfl, ?_⟩
  intro k
  cases k <;> decide

/-- Converting the discriminator of an enumerator back gives the enumerator. -/
theorem QueueType.ofByte_idx (k : QueueType) : QueueType.ofByte k.idx = some k := by
  cases k <;> rfl

/-- A byte converts to an enumerator only if it is its discriminator. -/
theorem QueueType.idx_of_ofByte {b : Nat} {k : QueueType}
    (h : QueueType.ofByte b = some k) : k.idx = b := by
  have hp := List.find?_some h
  simpa using hp

/-- A byte below 25 decodes to the kind it is the discriminator of. -/
theorem decodeHeader_of_lt {b : Nat} (hb : b < 25) :
    ∃ k : QueueType, k.isKind ∧ k.idx = b ∧ decodeHeader b = .ok k := by
  refine ⟨QueueType.enumerators.getD b .NUM_TYPES, ?_, ?_, ?_⟩ <;>
    interval_cases b <;> first | decide | rfl

/-- A byte of 25 or more decodes to no kind. -/
theorem decodeHeader_of_ge {b : Nat} (hb : 25 ≤ b) :
    decodeHeader b = .error .UnknownDiscriminator := by
  unfold decodeHeader
  cases hk : QueueType.ofByte b with
  | none => rfl
  | some k =>
    have hidx := QueueType.idx_of_ofByte hk
    have hnk : ¬ k.isKind := by
      unfold QueueType.isKind
      rw [hidx]
      exact Nat.not_lt.mpr hb
    simp [hnk]

/-- C6: the five string-transfer kinds have the discriminators 20 to 24, the
last five before `NUM_TYPES`; a kind is at or above `StringData` if and only
if it is one of the five, and if and only if its table entry is written as
`sizeof( QueueHeader ) + sizeof( QueueStringTransfer )`, which is how the
five trailing entries of the table, and no earlier one, are written. -/
theorem string_transfer_kinds_last :
    QueueType.StringData.idx = 20 ∧ QueueType.ThreadName.idx = 21 ∧
      QueueType.CustomStringData.idx = 22 ∧ QueueType.PlotName.idx = 23 ∧
      QueueType.SourceLocationPayload.idx = 24 ∧
      QueueType.StringData.idx = QueueType.NUM_TYPES.idx - 5 ∧
      QueueType.SourceLocationPayload.idx = QueueType.NUM_TYPES.idx - 1 ∧
      QueueDataSize.terms.drop 20 = List.replicate 5 [QueueHeader, QueueStringTransfer] ∧
      (∀ e ∈ QueueDataSize.terms.take 20, e ≠ [QueueHeader, QueueStringTransfer]) ∧
      ∀ k : QueueType, k.isKind →
        ((QueueType.StringData.idx ≤ k.idx ↔
            (k = .StringData ∨ k = .ThreadName ∨ k = .CustomStringData ∨ k = .PlotName ∨
              k = .SourceLocationPayload)) ∧
          ((k = .StringData ∨ k = .ThreadName ∨ k = .CustomStringData ∨ k = .PlotName ∨
              k = .SourceLocationPayload) ↔
            QueueDataSize.terms[k.idx]? = some [QueueHeader, QueueStringTransfer])) := by
  refine ⟨rfl, rfl, rfl, rfl, rfl, rfl, rfl, by decide, by decide, ?_⟩
  intro k hk
  cases k
  case NUM_TYPES => exact absurd hk (by decide)
  all_goals decide

/-- C6 at `PlotName`, one of the five string-transfer kinds. -/
theorem string_transfer_kinds_last_witness :
    QueueType.PlotName.isKind ∧
      ((QueueType.StringData.idx ≤ QueueType.PlotName.idx ↔
          (QueueType.PlotName = .StringData ∨ QueueType.PlotName = .ThreadName ∨
            QueueType.PlotName = .CustomStringData ∨ QueueType.PlotName = .PlotName ∨
            QueueType.PlotName = .SourceLocationPayload)) ∧
        ((QueueType.PlotName = .StringData ∨ QueueType.PlotName = .ThreadName ∨
            QueueType.PlotName = .CustomStringData ∨ QueueType.PlotName = .PlotName ∨
            QueueType.PlotName = .SourceLocationPayload) ↔
          QueueDataSize.terms[QueueType.PlotName.idx]? =
            some [QueueHeader, QueueStringTransfer])) :=
  ⟨by decide, string_transfer_kinds_last.2.2.2.2.2.2.2.2.2 .PlotName (by decide)⟩

/-- C7: a raw header byte is the discriminator of a kind, and an index of
`QueueDataSize`, if and only if it is below 25; the byte 25 of the sentinel
`NUM_TYPES` and every larger byte decodes to `UnknownDiscriminator`, never to
a kind, and a stream that starts with such a byte is rejected. -/
theorem header_byte_valid_iff_lt_25 :
    (∀ b : Nat, (∃ k : QueueType, k.isKind ∧ QueueType.ofByte b = some k) ↔ b < 25) ∧
      (∀ b : Nat, (∃ n, QueueDataSize[b]? = some n) ↔ b < 25) ∧
      (∀ b : Nat, (∃ k, decodeHeader b = .ok k) ↔ b < 25) ∧
      decodeHeader QueueType.NUM_TYPES.idx = .error .UnknownDiscriminator ∧
      (∀ b : Nat, 25 ≤ b → decodeHeader b = .error .UnknownDiscriminator) ∧
      (∀ (b : Nat) (rest : List Nat), 25 ≤ b →
        consume (b :: rest) = .error .UnknownDiscriminator) := by
  refine ⟨?_, ?_, ?_, decodeHeader_of_ge (Nat.le_refl 25),
    fun b hb => decodeHeader_of_ge hb, ?_⟩
  · intro b
    constructor
    · rintro ⟨k, hk, hb⟩
      have hidx := QueueType.idx_of_ofByte hb
      have h25 : k.idx < 25 := hk
      omega
    · intro hb
      obtain ⟨k, hk, hidx, -⟩ := decodeHeader_of_lt hb
      exact ⟨k, hk, hidx ▸ QueueType.ofByte_idx k⟩
  · intro b
    constructor
    · rintro ⟨n, hn⟩
      have hlt := (List.getElem?_eq_some_iff.mp hn).1
      exact hlt
    · intro hb
      have hlen : b < QueueDataSize.length := hb
      exact ⟨QueueDataSize[b], List.getElem?_eq_getElem hlen⟩
  · intro b
    constructor
    · rintro ⟨k, hk⟩
      by_contra hge
      rw [decodeHeader_of_ge (Nat.not_lt.mp hge)] at hk
      cases hk
    · intro hb
      obtain ⟨k, -, -, hk⟩ := decodeHeader_of_lt hb
      exact ⟨k, hk⟩
  · intro b rest hb
    unfold consume
    rw [consumeFrom, decodeHeader_of_ge hb]

/-- C7 at the byte 200, which is above every discriminator. -/
theorem header_byte_valid_iff_lt_25_witness :
    25 ≤ 200 ∧ decodeHeader 200 = .error .UnknownDiscriminator :=
  ⟨by decide, header_byte_valid_iff_lt_25.2.2.2.2.1 200 (by decide)⟩

/-- C8: `ZoneBeginAllocSrcLoc` and `ZoneBegin` have the distinct
discriminators 2 and 4 and the same table entry, written in both places as
`sizeof( QueueHeader ) + sizeof( QueueZoneBegin )`, which is 29. -/
theorem ZoneBeginAllocSrcLoc_shares_ZoneBegin_shape :
    QueueType.ZoneBeginAllocSrcLoc.idx = 2 ∧ QueueType.ZoneBegin.idx = 4 ∧
      QueueType.ZoneBeginAllocSrcLoc.idx ≠ QueueType.ZoneBegin.idx ∧
      QueueDataSize.terms[QueueType.ZoneBeginAllocSrcLoc.idx]? =
        some [QueueHeader, QueueZoneBegin] ∧
      QueueDataSize.terms[QueueType.ZoneBegin.idx]? = some [QueueHeader, QueueZoneBegin] ∧
      QueueDataSize[QueueType.ZoneBeginAllocSrcLoc.idx]? =
        QueueDataSize[QueueType.ZoneBegin.idx]? ∧
      QueueDataSize[QueueType.ZoneBegin.idx]? = some (sizeof QueueHeader + sizeof QueueZoneBegin) ∧
      sizeof QueueHeader + sizeof QueueZoneBegin = 29 := by
  decide

/-- Storing an enumerator and reading the raw byte gives its discriminator. -/
theorem QueueHeader.Storage.idx_setType (k : QueueType) :
    (QueueHeader.Storage.setType k).idx = k.idx := by
  cases k <;> rfl

/-- The discriminator of a kind decodes to the kind. -/
theorem decodeHeader_idx {k : QueueType} (hk : k.isKind) : decodeHeader k.idx = .ok k := by
  unfold decodeHeader
  rw [QueueType.ofByte_idx]
  simp [hk]

/-- A record with a valid payload passes the payload checks. -/
theorem checkPayload_of_valid {k : QueueType} {payload : List Nat}
    (h : payloadValid (k, payload)) : checkPayload k payload = .ok () := by
  obtain ⟨hP, hL⟩ := h
  simp only at hP hL
  unfold checkPayload
  split
  · have hv := hP rfl
    cases hb : (kindByte QueuePlotData payload).bind PlotDataType.ofByte with
    | none => rw [hb] at hv; cases hv
    | some v => rfl
  · have hv := hL rfl
    cases hb : (kindByte QueueLockAnnounce payload).bind LockType.ofByte with
    | none => rw [hb] at hv; cases hv
    | some t => rfl
  · rfl

/-- One step of the walk on a record of the right length followed by `rest`:
the payload is checked, and the walk goes on behind the record. -/
theorem consumeFrom_step (off : Nat) (k : QueueType) (payload rest : List Nat)
    (h : wireFormed (k, payload)) :
    consumeFrom off (k.idx :: (payload ++ rest)) =
      match checkPayload k payload with
      | .error e => .error e
      | .ok _ =>
        if k = .Terminate then .ok [⟨off, k, payload⟩]
        else
          match consumeFrom (off + wireSize k) rest with
          | .error e => .error e
          | .ok rs => .ok (⟨off, k, payload⟩ :: rs) := by
  obtain ⟨hk, hsz⟩ := h
  simp only at hk hsz
  have hw : wireSize k = payload.length + 1 := by
    unfold wireSize
    rw [List.getD_eq_getElem?_getD, hsz]
    rfl
  have hH : sizeof QueueHeader = 1 := by decide
  rw [consumeFrom, decodeHeader_idx hk]
  simp only [hsz, hH, hw, Nat.add_sub_cancel, List.length_append]
  simp

/-- One step of the walk on a well-formed record with a valid payload,
followed by `rest`. -/
theorem consumeFrom_record (off : Nat) (k : QueueType) (payload rest : List Nat)
    (h : wireFormed (k, payload)) (hv : payloadValid (k, payload)) :
    consumeFrom off (k.idx :: (payload ++ rest)) =
      if k = .Terminate then .ok [⟨off, k, payload⟩]
      else
        match consumeFrom (off + wireSize k) rest with
        | .error e => .error e
        | .ok rs => .ok (⟨off, k, payload⟩ :: rs) := by
  rw [consumeFrom_step off k payload rest h, checkPayload_of_valid hv]

/-- The wire form of a well-formed record starts with its discriminator. -/
theorem encode_cons (k : QueueType) (payload : List Nat) (rs : List (QueueType × List Nat)) :
    encode ((k, payload) :: rs) = k.idx :: (payload ++ encode rs) := by
  simp [encode, QueueHeader.Storage.idx_setType]

/-- The walk over the wire form of well-formed records with valid payloads
finds the expected records. -/
theorem consumeFrom_encode (rs : List (QueueType × List Nat)) :
    ∀ off : Nat, (∀ r ∈ rs, wireFormed r ∧ payloadValid r) →
      consumeFrom off (encode rs) = .ok (recordsFrom off rs) := by
  induction rs with
  | nil =>
    intro off _
    rw [encode, consumeFrom, recordsFrom]
  | cons r rs ih =>
    intro off h
    obtain ⟨k, payload⟩ := r
    have hr : wireFormed (k, payload) ∧ payloadValid (k, payload) :=
      h _ (List.mem_cons_self _ _)
    have hrs : ∀ r ∈ rs, wireFormed r ∧ payloadValid r :=
      fun r hmem => h r (List.mem_cons_of_mem _ hmem)
    rw [encode_cons, consumeFrom_record off k payload (encode rs) hr.1 hr.2, recordsFrom]
    by_cases hT : k = .Terminate
    · simp [hT]
    · simp only [hT, if_false]
      rw [ih (off + wireSize k) hrs]

/-- A `PlotData` record whose value-kind byte is no enumerator of
`PlotDataType` stops the walk with `InvalidValueKind`, and a `LockAnnounce`
record whose kind byte is no enumerator of `LockType` stops it with
`InvalidLockKind`. -/
theorem consume_invalid_kind_byte (rest : List Nat) :
    consume (QueueType.PlotData.idx :: (List.replicate 25 255 ++ rest)) =
        .error .InvalidValueKind ∧
      consume (QueueType.LockAnnounce.idx :: (List.replicate 13 9 ++ rest)) =
        .error .InvalidLockKind := by
  constructor
  · unfold consume
    rw [consumeFrom_step 0 .PlotData (List.replicate 25 255) rest (by decide)]
    rfl
  · unfold consume
    rw [consumeFrom_step 0 .LockAnnounce (List.replicate 13 9) rest (by decide)]
    rfl

/-- The kinds of the expected records are the kinds of the input up to and
including the first `Terminate`. -/
theorem recordsFrom_kinds (rs : List (QueueType × List Nat)) :
    ∀ off : Nat, (recordsFrom off rs).map (fun r => r.kind) = uptoTerminate (rs.map (fun r => r.1)) := by
  induction rs with
  | nil => intro off; rfl
  | cons r rs ih =>
    intro off
    obtain ⟨k, payload⟩ := r
    by_cases hT : k = .Terminate
    · simp [recordsFrom, uptoTerminate, hT]
    · simp [recordsFrom, uptoTerminate, hT, ih]

/-- The payloads of the expected records are those of the input, in order. -/
theorem recordsFrom_payloads (rs : List (QueueType × List Nat)) :
    ∀ off : Nat, (recordsFrom off rs).map (fun r => r.payload) =
      (rs.map (fun r => r.2)).take (recordsFrom off rs).length := by
  induction rs with
  | nil => intro off; rfl
  | cons r rs ih =>
    intro off
    obtain ⟨k, payload⟩ := r
    by_cases hT : k = .Terminate
    · simp [recordsFrom, hT]
    · simp only [recordsFrom, hT, if_false, List.map_cons, List.length_cons, List.take_succ_cons]
      rw [ih]

/-- The expected records start at the prefix sums of the wire sizes. -/
theorem recordsFrom_offsets (rs : List (QueueType × List Nat)) :
    ∀ (off i : Nat), i < (recordsFrom off rs).length →
      ((recordsFrom off rs).map (fun r => r.offset))[i]? =
        some (off + ((rs.map (fun r => wireSize r.1)).take i).sum) := by
  induction rs with
  | nil => intro off i hi; simp [recordsFrom] at hi
  | cons r rs ih =>
    intro off i hi
    obtain ⟨k, payload⟩ := r
    cases i with
    | zero => simp [recordsFrom]
    | succ i =>
      by_cases hT : k = .Terminate
      · simp [recordsFrom, hT] at hi
      · simp only [recordsFrom, hT, if_false, List.length_cons, Nat.add_lt_add_iff_right] at hi
        simp only [recordsFrom, hT, if_false, List.map_cons, List.getElem?_cons_succ,
          List.take_succ_cons, List.sum_cons]
        rw [ih (off + wireSize k) i hi, Nat.add_assoc]

/-- C9: for every sequence of records that are well-formed for the wire (a
kind with `QueueDataSize[kind] - 1` payload bytes) and have valid payloads,
consuming their packed wire form yields the original kinds and payloads in
order up to and including the first `Terminate`, each record starting at the
prefix sum of the table entries before it; for `[ZoneBegin, ZoneEnd,
Terminate]` these are exactly 3 records at the offsets 0, 29 and 50, the
third of 1 byte, in a stream of 51 bytes. -/
theorem consume_encode_kinds_and_boundaries :
    (∀ rs : List (QueueType × List Nat), (∀ r ∈ rs, wireFormed r ∧ payloadValid r) →
      ∃ out : List Record, consume (encode rs) = .ok out ∧
        out.map (fun r => r.kind) = uptoTerminate (rs.map (fun r => r.1)) ∧
        out.map (fun r => r.payload) = (rs.map (fun r => r.2)).take out.length ∧
        ∀ i : Nat, i < out.length →
          (out.map (fun r => r.offset))[i]? =
            some (((rs.map (fun r => wireSize r.1)).take i).sum)) ∧
      (∀ p₁ p₂ : List Nat, p₁.length = 28 → p₂.length = 20 →
        consume (encode [(.ZoneBegin, p₁), (.ZoneEnd, p₂), (.Terminate, [])]) =
            .ok [⟨0, .ZoneBegin, p₁⟩, ⟨29, .ZoneEnd, p₂⟩, ⟨50, .Terminate, []⟩] ∧
          (encode [(.ZoneBegin, p₁), (.ZoneEnd, p₂), (.Terminate, [])]).length = 51 ∧
          wireSize .Terminate = 1) := by
  constructor
  · intro rs h
    refine ⟨recordsFrom 0 rs, consumeFrom_encode rs 0 h, recordsFrom_kinds rs 0,
      recordsFrom_payloads rs 0, ?_⟩
    intro i hi
    rw [recordsFrom_offsets rs 0 i hi, Nat.zero_add]
  · intro p₁ p₂ h₁ h₂
    have hwf : ∀ r ∈ [(QueueType.ZoneBegin, p₁), (QueueType.ZoneEnd, p₂),
        (QueueType.Terminate, ([] : List Nat))], wireFormed r ∧ payloadValid r := by
      intro r hr
      simp only [List.mem_cons, List.mem_singleton, List.not_mem_nil, or_false] at hr
      rcases hr with rfl | rfl | rfl
      · exact ⟨⟨show QueueType.ZoneBegin.isKind by decide,
          show QueueDataSize[QueueType.ZoneBegin.idx]? = some (p₁.length + 1) by
            rw [h₁]; decide⟩,
          ⟨fun hc => absurd (show QueueType.ZoneBegin = .PlotData from hc) (by decide),
            fun hc => absurd (show QueueType.ZoneBegin = .LockAnnounce from hc) (by decide)⟩⟩
      · exact ⟨⟨show QueueType.ZoneEnd.isKind by decide,
          show QueueDataSize[QueueType.ZoneEnd.idx]? = some (p₂.length + 1) by
            rw [h₂]; decide⟩,
          ⟨fun hc => absurd (show QueueType.ZoneEnd = .PlotData from hc) (by decide),
            fun hc => absurd (show QueueType.ZoneEnd = .LockAnnounce from hc) (by decide)⟩⟩
      · exact ⟨by decide, by decide⟩
    refine ⟨?_, ?_, by decide⟩
    · unfold consume
      rw [consumeFrom_encode _ 0 hwf]
      rfl
    · simp [encode, h₁, h₂]

/-- C9 on the records of the scenarios of the specification: a `PlotData`
and a `LockAnnounce` with valid kind bytes, then the `ZoneBegin`, the
`ZoneEnd` and the `Terminate`. -/
theorem consume_encode_kinds_and_boundaries_witness :
    (∀ r ∈ scenarioRecords, wireFormed r ∧ payloadValid r) ∧
      ∃ out : List Record, consume (encode scenarioRecords) = .ok out ∧
        out.map (fun r => r.kind) = uptoTerminate (scenarioRecords.map (fun r => r.1)) ∧
        out.map (fun r => r.payload) =
          (scenarioRecords.map (fun r => r.2)).take out.length ∧
        ∀ i : Nat, i < out.length →
          (out.map (fun r => r.offset))[i]? =
            some (((scenarioRecords.map (fun r => wireSize r.1)).take i).sum) :=
  ⟨by decide, consume_encode_kinds_and_boundaries.1 scenarioRecords (by decide)⟩

/-- C10: the header is one byte, and storing a kind through `type` then
reading `idx` gives the position of the kind in the enumeration; converting
that byte back through `type` gives the kind again, and distinct kinds give
distinct bytes. -/
theorem QueueHeader_type_idx_same_byte :
    sizeof QueueHeader = 1 ∧
      (∀ k : QueueType,
        (QueueHeader.Storage.setType k).idx = QueueType.enumerators.indexOf k ∧
          (QueueHeader.Storage.setType k).type = some k ∧
          (QueueHeader.Storage.setType k).idx < 2 ^ 8) ∧
      (∀ k₁ k₂ : QueueType,
        (QueueHeader.Storage.setType k₁).idx = (QueueHeader.Storage.setType k₂).idx →
          k₁ = k₂) := by
  refine ⟨by decide, ?_, ?_⟩
  · intro k
    cases k <;> decide
  · intro k₁ k₂ h
    cases k₁ <;> cases k₂ <;> first | rfl | exact absurd h (by decide)

/-- C10 at `ZoneBegin` and `ZoneEnd`: their header bytes 4 and 5 differ. -/
theorem QueueHeader_type_idx_same_byte_witness :
    (QueueHeader.Storage.setType .ZoneBegin).idx = 4 ∧
      (QueueHeader.Storage.setType .ZoneEnd).idx = 5 ∧
      ((QueueHeader.Storage.setType .ZoneBegin).idx =
          (QueueHeader.Storage.setType .ZoneEnd).idx →
        QueueType.ZoneBegin = QueueType.ZoneEnd) :=
  ⟨by decide, by decide, QueueHeader_type_idx_same_byte.2.2 .ZoneBegin .ZoneEnd⟩

/-- A byte converts to a value-kind exactly when it is its underlying value. -/
theorem PlotDataType.ofByte_eq_some_iff_idx (b : Nat) (v : PlotDataType) :
    PlotDataType.ofByte b = some v ↔ v.idx = b := by
  constructor
  · intro h
    have hp := List.find?_some h
    simpa using hp
  · rintro rfl
    cases v <;> rfl

/-- A byte converts to a lock-kind exactly when it is its underlying value. -/
theorem LockType.ofByte_lock_eq_some_iff_idx (b : Nat) (t : LockType) :
    LockType.ofByte b = some t ↔ t.idx = b := by
  constructor
  · intro h
    have hp := List.find?_some h
    simpa using hp
  · rintro rfl
    cases t <;> rfl

/-- C11: the value-kinds `Float`, `Double`, `Int` have the bytes 0, 1, 2 and
the lock-kinds `Lockable`, `SharedLockable` the bytes 0, 1; a byte is the
value of an enumerator of `PlotDataType` if and only if it is 0, 1 or 2, and
of `LockType` if and only if it is 0 or 1, and every other byte converts to
no enumerator. -/
theorem value_kind_and_lock_kind_bytes :
    PlotDataType.ofByte 0 = some .Float ∧ PlotDataType.ofByte 1 = some .Double ∧
      PlotDataType.ofByte 2 = some .Int ∧
      LockType.ofByte 0 = some .Lockable ∧ LockType.ofByte 1 = some .SharedLockable ∧
      (∀ b : Nat, (∃ v, PlotDataType.ofByte b = some v) ↔ (b = 0 ∨ b = 1 ∨ b = 2)) ∧
      (∀ b : Nat, (∃ t, LockType.ofByte b = some t) ↔ (b = 0 ∨ b = 1)) ∧
      (∀ b : Nat, ¬ (b = 0 ∨ b = 1 ∨ b = 2) → PlotDataType.ofByte b = none) ∧
      (∀ b : Nat, ¬ (b = 0 ∨ b = 1) → LockType.ofByte b = none) := by
  have hP : ∀ b : Nat, (∃ v, PlotDataType.ofByte b = some v) ↔ (b = 0 ∨ b = 1 ∨ b = 2) := by
    intro b
    constructor
    · rintro ⟨v, hv⟩
      have hidx := (PlotDataType.ofByte_eq_some_iff_idx b v).mp hv
      cases v
      · exact Or.inl hidx.symm
      · exact Or.inr (Or.inl hidx.symm)
      · exact Or.inr (Or.inr hidx.symm)
    · rintro (rfl | rfl | rfl)
      · exact ⟨_, rfl⟩
      · exact ⟨_, rfl⟩
      · exact ⟨_, rfl⟩
  have hL : ∀ b : Nat, (∃ t, LockType.ofByte b = some t) ↔ (b = 0 ∨ b = 1) := by
    intro b
    constructor
    · rintro ⟨t, ht⟩
      have hidx := (LockType.ofByte_lock_eq_some_iff_idx b t).mp ht
      cases t
      · exact Or.inl hidx.symm
      · exact Or.inr hidx.symm
    · rintro (rfl | rfl)
      · exact ⟨_, rfl⟩
      · exact ⟨_, rfl⟩
  refine ⟨rfl, rfl, rfl, rfl, rfl, hP, hL, ?_, ?_⟩
  · intro b hb
    cases h : PlotDataType.ofByte b with
    | none => rfl
    | some v => exact absurd ((hP b).mp ⟨v, h⟩) hb
  · intro b hb
    cases h : LockType.ofByte b with
    | none => rfl
    | some t => exact absurd ((hL b).mp ⟨t, h⟩) hb

/-- C11 at the byte 3, the first that is no value-kind, and at the byte 2,
the first that is no lock-kind. -/
theorem value_kind_and_lock_kind_bytes_witness :
    ¬ ((3 : Nat) = 0 ∨ (3 : Nat) = 1 ∨ (3 : Nat) = 2) ∧ PlotDataType.ofByte 3 = none ∧
      ¬ ((2 : Nat) = 0 ∨ (2 : Nat) = 1) ∧ LockType.ofByte 2 = none :=
  ⟨by decide, value_kind_and_lock_kind_bytes.2.2.2.2.2.2.2.1 3 (by decide),
    by decide, value_kind_and_lock_kind_bytes.2.2.2.2.2.2.2.2 2 (by decide)⟩

/-- C12: in the packed `QueuePlotData` the member `name` is at the offsets 0
to 7, `time` at 8 to 15, the value-kind `type` at 16 and the value `data` at
17 to 24, right after the value-kind; `data` is 8 bytes whichever value-kind
selects its alternative, so `sizeof( QueuePlotData )` is 25. -/
theorem QueuePlotData_value_follows_kind :
    QueuePlotData.memberSpans pragmaPack =
        [("name", 0, 8), ("time", 8, 8), ("type", 16, 1), ("data", 17, 8)] ∧
      offsetof QueuePlotData "name" = some 0 ∧
      offsetof QueuePlotData "time" = some 8 ∧
      offsetof QueuePlotData "type" = some 16 ∧
      offsetof QueuePlotData "data" = some (16 + 1) ∧
      memberSize QueuePlotData "type" = some 1 ∧
      memberSize QueuePlotData "data" = some 8 ∧
      sizeof QueuePlotData = 17 + 8 ∧
      sizeof QueuePlotData = 25 ∧
      ∀ v : PlotDataType, ∃ alts : List (String × Scalar),
        QueuePlotData.fields.lookup "data" = some (.union alts) ∧
          v.alternative ∈ alts ∧
          v.alternative.2.sizeof ≤ ((Member.union alts).layout pragmaPack).size ∧
          ((Member.union alts).layout pragmaPack).size = 8 := by
  refine ⟨by decide, by decide, by decide, by decide, by decide, by decide, by decide,
    by decide, by decide, ?_⟩
  intro v
  refine ⟨[("d", .double), ("f", .float), ("i", .int64_t)], by decide, ?_, ?_, by decide⟩ <;>
    cases v <;> decide

/-- C13: every entry of `QueueDataSize` is at most `QueueItemSize`, 32; the
entry of `SourceLocation`, `1 + 31`, is the only one equal to it, and the
entry of every other kind is below 32. -/
theorem QueueDataSize_le_QueueItemSize :
    QueueItemSize = 32 ∧
      (∀ n ∈ QueueDataSize, n ≤ QueueItemSize) ∧
      QueueDataSize[QueueType.SourceLocation.idx]? =
        some (sizeof QueueHeader + sizeof QueueSourceLocation) ∧
      sizeof QueueHeader = 1 ∧ sizeof QueueSourceLocation = 31 ∧
      ∀ k : QueueType, k.isKind →
        ∃ n, QueueDataSize[k.idx]? = some n ∧ n ≤ QueueItemSize ∧
          (n = QueueItemSize ↔ k = .SourceLocation) ∧
          (k ≠ .SourceLocation → n < 32) := by
  refine ⟨by decide, by decide, by decide, by decide, by decide, ?_⟩
  intro k hk
  cases k
  case NUM_TYPES => exact absurd hk (by decide)
  all_goals exact ⟨_, rfl, by decide, by decide, by decide⟩

/-- C13 at `PlotData`, a kind other than `SourceLocation`: its entry 26 is
below 32. -/
theorem QueueDataSize_le_QueueItemSize_witness :
    QueueType.PlotData.isKind ∧
      ∃ n, QueueDataSize[QueueType.PlotData.idx]? = some n ∧ n ≤ QueueItemSize ∧
        (n = QueueItemSize ↔ QueueType.PlotData = .SourceLocation) ∧
        (QueueType.PlotData ≠ .SourceLocation → n < 32) :=
  ⟨by decide, QueueDataSize_le_QueueItemSize.2.2.2.2.2 .PlotData (by decide)⟩

/-- Every entry of the table is at least the size of the header. -/
theorem QueueDataSize_entry_pos : ∀ n ∈ QueueDataSize, sizeof QueueHeader ≤ n := by
  decide

/-- A header byte that decodes gives a kind, whose discriminator it is. -/
theorem decodeHeader_ok {b : Nat} {k : QueueType} (h : decodeHeader b = .ok k) :
    k.isKind ∧ k.idx = b := by
  unfold decodeHeader at h
  cases hk : QueueType.ofByte b with
  | none => rw [hk] at h; cases h
  | some k₀ =>
    rw [hk] at h
    by_cases hkind : k₀.isKind
    · simp only [hkind, if_true] at h
      cases h
      exact ⟨hkind, QueueType.idx_of_ofByte hk⟩
    · simp only [hkind, if_false] at h
      cases h

/-- The wire size of a kind is at least one byte. -/
theorem wireSize_pos {k : QueueType} (hk : k.isKind) : 1 ≤ wireSize k := by
  cases k
  case NUM_TYPES => exact absurd hk (by decide)
  all_goals decide

/-- A step of the consumer starts inside the stream and moves forward. -/
theorem advance_some {bytes : List Nat} {off next : Nat}
    (h : advance bytes off = some next) : off < next ∧ off < bytes.length := by
  unfold advance at h
  cases hb : bytes[off]? with
  | none => rw [hb] at h; cases h
  | some b =>
    rw [hb] at h
    dsimp only at h
    have hlt : off < bytes.length := (List.getElem?_eq_some_iff.mp hb).1
    cases hd : decodeHeader b with
    | error e => rw [hd] at h; cases h
    | ok k =>
      rw [hd] at h
      have hpos := wireSize_pos (decodeHeader_ok hd).1
      simp only [Option.some.injEq] at h
      omega

/-- The offsets of a walk are at or after its start. -/
theorem walk_ge (fuel : Nat) (bytes : List Nat) :
    ∀ off : Nat, ∀ o ∈ walk fuel bytes off, off ≤ o := by
  induction fuel with
  | zero => intro off o ho; simp [walk] at ho
  | succ fuel ih =>
    intro off o ho
    unfold walk at ho
    cases ha : advance bytes off with
    | none => rw [ha] at ho; simp at ho
    | some next =>
      rw [ha] at ho
      have hlt := (advance_some ha).1
      rcases List.mem_cons.mp ho with rfl | hmem
      · exact Nat.le_refl _
      · exact Nat.le_trans (Nat.le_of_lt hlt) (ih next o hmem)

/-- The offsets of a walk increase strictly. -/
theorem walk_pairwise (fuel : Nat) (bytes : List Nat) :
    ∀ off : Nat, (walk fuel bytes off).Pairwise (fun a b => a < b) := by
  induction fuel with
  | zero => intro off; simp [walk]
  | succ fuel ih =>
    intro off
    unfold walk
    cases ha : advance bytes off with
    | none => simp
    | some next =>
      have hlt := (advance_some ha).1
      refine List.Pairwise.cons ?_ (ih next)
      intro o ho
      exact Nat.lt_of_lt_of_le hlt (walk_ge fuel bytes next o ho)

/-- A walk decodes no more records than bytes remain. -/
theorem walk_length_le (fuel : Nat) (bytes : List Nat) :
    ∀ off : Nat, (walk fuel bytes off).length ≤ bytes.length - off := by
  induction fuel with
  | zero => intro off; simp [walk]
  | succ fuel ih =>
    intro off
    unfold walk
    cases ha : advance bytes off with
    | none => simp
    | some next =>
      have hs := advance_some ha
      have hn := ih next
      simp only [List.length_cons]
      omega

/-- A walk that starts at or after the end of the stream decodes nothing. -/
theorem walk_of_le (fuel : Nat) (bytes : List Nat) (off : Nat) (h : bytes.length ≤ off) :
    walk fuel bytes off = [] := by
  cases fuel with
  | zero => rfl
  | succ fuel =>
    unfold walk
    cases ha : advance bytes off with
    | none => rfl
    | some next => exact absurd (advance_some ha).2 (Nat.not_lt.mpr h)

/-- Two walks that are each allowed as many steps as bytes remain decode the
same records. -/
theorem walk_fuel_irrelevant (bytes : List Nat) :
    ∀ (fuel₁ fuel₂ off : Nat), bytes.length - off ≤ fuel₁ → bytes.length - off ≤ fuel₂ →
      walk fuel₁ bytes off = walk fuel₂ bytes off := by
  intro fuel₁
  induction fuel₁ with
  | zero =>
    intro fuel₂ off h₁ _
    have hle : bytes.length ≤ off := by omega
    rw [walk_of_le 0 bytes off hle, walk_of_le fuel₂ bytes off hle]
  | succ fuel₁ ih =>
    intro fuel₂ off h₁ h₂
    cases fuel₂ with
    | zero =>
      have hle : bytes.length ≤ off := by omega
      rw [walk_of_le (fuel₁ + 1) bytes off hle, walk_of_le 0 bytes off hle]
    | succ fuel₂ =>
      unfold walk
      cases ha : advance bytes off with
      | none => rfl
      | some next =>
        have hs := advance_some ha
        have e := ih fuel₂ next (by omega) (by omega)
        simp only [e]

/-- The records the stream walk returns are no more than the bytes of the
stream, start at or after the start of the walk, and have strictly
increasing offsets. -/
theorem consumeFrom_bound :
    ∀ (n : Nat) (bytes : List Nat) (off : Nat) (out : List Record),
      bytes.length ≤ n → consumeFrom off bytes = .ok out →
        out.length ≤ bytes.length ∧ (∀ r ∈ out, off ≤ r.offset) ∧
          (out.map (fun r => r.offset)).Pairwise (fun a b => a < b) := by
  intro n
  induction n with
  | zero =>
    intro bytes off out hlen h
    have hnil : bytes = [] := List.length_eq_zero.mp (Nat.le_zero.mp hlen)
    subst hnil
    rw [consumeFrom] at h
    cases h
    simp
  | succ n ih =>
    intro bytes off out hlen h
    cases bytes with
    | nil =>
      rw [consumeFrom] at h
      cases h
      simp
    | cons b rest =>
      rw [consumeFrom] at h
      cases hd : decodeHeader b with
      | error e => rw [hd] at h; cases h
      | ok k =>
        rw [hd] at h
        dsimp only at h
        cases hs : QueueDataSize[b]? with
        | none => rw [hs] at h; cases h
        | some size =>
          rw [hs] at h
          dsimp only at h
          have hpos : 1 ≤ size := by
            have hmem : size ∈ QueueDataSize := List.getElem?_mem hs
            have := QueueDataSize_entry_pos size hmem
            have hH : sizeof QueueHeader = 1 := by decide
            omega
          by_cases htr : rest.length < size - sizeof QueueHeader
          · simp only [htr, if_true] at h
            cases h
          · simp only [htr, if_false] at h
            cases hc : checkPayload k (rest.take (size - sizeof QueueHeader)) with
            | error e => rw [hc] at h; cases h
            | ok u =>
            rw [hc] at h
            dsimp only at h
            by_cases hT : k = .Terminate
            · simp only [hT, if_true] at h
              cases h
              simp
            · simp only [hT, if_false] at h
              cases hrec : consumeFrom (off + size) (rest.drop (size - sizeof QueueHeader)) with
              | error e => rw [hrec] at h; cases h
              | ok rs =>
                rw [hrec] at h
                dsimp only at h
                cases h
                have hdrop : (rest.drop (size - sizeof QueueHeader)).length ≤ n := by
                  simp only [List.length_drop, List.length_cons] at hlen ⊢
                  omega
                obtain ⟨hl, hge, hpw⟩ := ih _ _ _ hdrop hrec
                refine ⟨?_, ?_, ?_⟩
                · simp only [List.length_drop, List.length_cons] at hl ⊢
                  omega
                · intro r hr
                  rcases List.mem_cons.mp hr with rfl | hmem
                  · exact Nat.le_refl _
                  · have := hge r hmem
                    omega
                · simp only [List.map_cons]
                  refine List.Pairwise.cons ?_ hpw
                  intro o ho
                  obtain ⟨r, hr, rfl⟩ := List.mem_map.mp ho
                  have := hge r hr
                  omega

/-- C14: every entry of `QueueDataSize` is at least 1, the size of the
header, so each step of a consumer that advances by the table entry of the
decoded discriminator starts inside the stream and moves strictly forward; on
a stream of n bytes it decodes at most n records, at strictly increasing
offsets, and has stopped by itself after n steps; the same bound holds for
the records the stream walk of the specification returns. -/
theorem consumer_stops_within_stream_length :
    (∀ n ∈ QueueDataSize, sizeof QueueHeader ≤ n) ∧
      sizeof QueueHeader = 1 ∧
      (∀ k : QueueType, k.isKind → 1 ≤ wireSize k) ∧
      (∀ (bytes : List Nat) (off next : Nat), advance bytes off = some next →
        off < next ∧ bytes.length - next < bytes.length - off) ∧
      (∀ (fuel : Nat) (bytes : List Nat),
        (walk fuel bytes 0).length ≤ bytes.length ∧
          (walk fuel bytes 0).Pairwise (fun a b => a < b)) ∧
      (∀ (fuel : Nat) (bytes : List Nat), bytes.length ≤ fuel →
        walk fuel bytes 0 = walk bytes.length bytes 0) ∧
      (∀ (bytes : List Nat) (out : List Record), consume bytes = .ok out →
        out.length ≤ bytes.length ∧
          (out.map (fun r => r.offset)).Pairwise (fun a b => a < b)) := by
  refine ⟨QueueDataSize_entry_pos, by decide, fun k hk => wireSize_pos hk, ?_, ?_, ?_, ?_⟩
  · intro bytes off next h
    have hs := advance_some h
    exact ⟨hs.1, by omega⟩
  · intro fuel bytes
    exact ⟨by simpa using walk_length_le fuel bytes 0, walk_pairwise fuel bytes 0⟩
  · intro fuel bytes h
    exact walk_fuel_irrelevant bytes fuel bytes.length 0 (by simpa using h) (by simp)
  · intro bytes out h
    obtain ⟨hl, -, hpw⟩ := consumeFrom_bound bytes.length bytes 0 out (Nat.le_refl _) h
    exact ⟨hl, hpw⟩

/-- C14 on a stream of one `ZoneEnd` record and one `Terminate` record, 22
bytes: the step at offset 0 goes to offset 21, and 100 allowed steps decode
what 22 do. -/
theorem consumer_stops_within_stream_length_witness :
    advance (5 :: List.replicate 20 0 ++ [3]) 0 = some 21 ∧
      (0 < 21 ∧
        (5 :: List.replicate 20 0 ++ [3]).length - 21 <
          (5 :: List.replicate 20 0 ++ [3]).length - 0) ∧
      (5 :: List.replicate 20 0 ++ [3]).length ≤ 100 ∧
      walk 100 (5 :: List.replicate 20 0 ++ [3]) 0 =
        walk (5 :: List.replicate 20 0 ++ [3]).length (5 :: List.replicate 20 0 ++ [3]) 0 :=
  ⟨by decide,
    consumer_stops_within_stream_length.2.2.2.1 (5 :: List.replicate 20 0 ++ [3]) 0 21
      (by decide),
    by decide,
    consumer_stops_within_stream_length.2.2.2.2.2.1 100 (5 :: List.replicate 20 0 ++ [3])
      (by decide)⟩

end tracy
